import Mathlib

/-!
Verification of the audiolink routing core: a shallow embedding of
`pipewire_controller.py` and `state_manager.py`.

Python strings are `String`; Python string comparison (code-point
lexicographic) is embedded as a structural order on the character list, so
that every comparison evaluates in the kernel.  Python `dict`s are
insertion-ordered association lists with overwrite-in-place semantics;
Python `set`s are `Finset`s.  Python's `sorted` (a stable sort) is embedded
as `List.insertionSort`, which is also stable, so the two agree wherever the
comparison key is a total preorder.  External commands (`pw-dump`,
`pw-link`, `wpctl`, `pactl`) are modelled as oracle parameters, and the
commands a function issues are returned as an explicit trace.
-/

/-! ## Code-point lexicographic string order (Python string comparison) -/

def charListLt : List Char → List Char → Bool
  | [], [] => false
  | [], _ :: _ => true
  | _ :: _, [] => false
  | a :: as, b :: bs => if a < b then true else if b < a then false else charListLt as bs

def strLt (a b : String) : Prop := charListLt a.data b.data = true

def strLe (a b : String) : Prop := charListLt b.data a.data = false

instance : DecidableRel strLt := fun _ _ => instDecidableEqBool _ _

instance : DecidableRel strLe := fun _ _ => instDecidableEqBool _ _

theorem charListLt_cons {a b : Char} {as bs : List Char} :
    charListLt (a :: as) (b :: bs) = true ↔ a < b ∨ (a = b ∧ charListLt as bs = true) := by
  by_cases hab : a < b
  · simp [charListLt, hab]
  · by_cases hba : b < a
    · simp [charListLt, hab, hba]
      intro h
      exact absurd (h ▸ hba) (lt_irrefl a)
    · have heq : a = b := le_antisymm (not_lt.mp hba) (not_lt.mp hab)
      simp [charListLt, hab, hba, heq]

theorem charListLt_trans :
    ∀ {as bs cs : List Char}, charListLt as bs = true → charListLt bs cs = true →
      charListLt as cs = true
  | [], _ :: _, _ :: _, _, _ => rfl
  | a :: as, b :: bs, c :: cs, h1, h2 => by
    rcases charListLt_cons.mp h1 with hab | ⟨hab, h1'⟩ <;>
      rcases charListLt_cons.mp h2 with hbc | ⟨hbc, h2'⟩
    · exact charListLt_cons.mpr (Or.inl (lt_trans hab hbc))
    · exact charListLt_cons.mpr (Or.inl (hbc ▸ hab))
    · exact charListLt_cons.mpr (Or.inl (hab ▸ hbc))
    · exact charListLt_cons.mpr (Or.inr ⟨hab.trans hbc, charListLt_trans h1' h2'⟩)

theorem charListLt_asymm : ∀ {as bs : List Char},
    charListLt as bs = true → charListLt bs as = false
  | [], _ :: _, _ => rfl
  | a :: as, b :: bs, h => by
    rcases charListLt_cons.mp h with hab | ⟨hab, h'⟩
    · by_contra hbs
      rcases charListLt_cons.mp (Bool.not_eq_false _ ▸ hbs) with hba | ⟨hba, _⟩
      · exact absurd (lt_trans hab hba) (lt_irrefl a)
      · exact absurd (hba ▸ hab) (lt_irrefl b)
    · by_contra hbs
      rcases charListLt_cons.mp (Bool.not_eq_false _ ▸ hbs) with hba | ⟨_, h2'⟩
      · exact absurd (hab ▸ hba) (lt_irrefl a)
      · exact absurd h2' (by simp [charListLt_asymm h'])

theorem charListLt_irrefl : ∀ (as : List Char), charListLt as as = false
  | [] => rfl
  | a :: as => by simp [charListLt, lt_irrefl a, charListLt_irrefl as]

theorem charListLt_eq_of_not : ∀ {as bs : List Char},
    charListLt as bs = false → charListLt bs as = false → as = bs
  | [], [], _, _ => rfl
  | [], _ :: _, h, _ => by simp [charListLt] at h
  | _ :: _, [], _, h => by simp [charListLt] at h
  | a :: as, b :: bs, h1, h2 => by
    by_cases hab : a < b
    · have hc : charListLt (a :: as) (b :: bs) = true := charListLt_cons.mpr (Or.inl hab)
      rw [h1] at hc; exact absurd hc (by simp)
    · by_cases hba : b < a
      · have hc : charListLt (b :: bs) (a :: as) = true := charListLt_cons.mpr (Or.inl hba)
        rw [h2] at hc; exact absurd hc (by simp)
      · have heq : a = b := le_antisymm (not_lt.mp hba) (not_lt.mp hab)
        have h1' : charListLt as bs = false := by
          by_contra hc
          exact absurd (charListLt_cons.mpr (Or.inr ⟨heq, Bool.not_eq_false _ ▸ hc⟩))
            (by simp [h1])
        have h2' : charListLt bs as = false := by
          by_contra hc
          exact absurd (charListLt_cons.mpr (Or.inr ⟨heq.symm, Bool.not_eq_false _ ▸ hc⟩))
            (by simp [h2])
        rw [heq, charListLt_eq_of_not h1' h2']

theorem strLe_total (a b : String) : strLe a b ∨ strLe b a := by
  unfold strLe
  rcases hba : charListLt b.data a.data with _ | _
  · exact Or.inl rfl
  · exact Or.inr (charListLt_asymm hba)

theorem strLe_trans {a b c : String} (h1 : strLe a b) (h2 : strLe b c) : strLe a c := by
  unfold strLe at *
  by_contra hc
  have hca : charListLt c.data a.data = true := Bool.not_eq_false _ ▸ hc
  rcases hab : charListLt a.data b.data with _ | _
  · rcases hbc : charListLt b.data c.data with _ | _
    · have : b.data = c.data := charListLt_eq_of_not hbc h2
      have : a.data = b.data := charListLt_eq_of_not hab h1
      simp_all [charListLt_asymm hca]
    · exact absurd h1 (by simp [charListLt_trans hbc hca])
  · exact absurd h2 (by simp [charListLt_trans hca hab])

theorem strLe_antisymm {a b : String} (h1 : strLe a b) (h2 : strLe b a) : a = b := by
  cases a; cases b
  exact congrArg String.mk (charListLt_eq_of_not h2 h1)

theorem strLt_of_le_ne {a b : String} (h : strLe a b) (hne : a ≠ b) : strLt a b := by
  unfold strLt
  rcases hab : charListLt a.data b.data with _ | _
  · refine absurd ?_ hne
    cases a; cases b
    exact congrArg String.mk (charListLt_eq_of_not hab h)
  · rfl

theorem strLe_of_lt {a b : String} (h : strLt a b) : strLe a b := charListLt_asymm h

/-! Lexicographic order on pairs of strings: how Python's `sorted` compares
tuples of strings, used for `sorted(set_of_pairs)` in the reconciler. -/

def pairLe (a b : String × String) : Prop := strLt a.1 b.1 ∨ (a.1 = b.1 ∧ strLe a.2 b.2)

instance : DecidableRel pairLe := fun _ _ => instDecidableOr

instance : IsTotal (String × String) pairLe := by
  constructor
  intro a b
  by_cases h1 : a.1 = b.1
  · rcases strLe_total a.2 b.2 with h | h
    · exact Or.inl (Or.inr ⟨h1, h⟩)
    · exact Or.inr (Or.inr ⟨h1.symm, h⟩)
  · rcases strLe_total a.1 b.1 with h | h
    · exact Or.inl (Or.inl (strLt_of_le_ne h h1))
    · exact Or.inr (Or.inl (strLt_of_le_ne h (Ne.symm h1)))

instance : IsTrans (String × String) pairLe := by
  constructor
  intro a b c hab hbc
  rcases hab with hab | ⟨hab, hab2⟩ <;> rcases hbc with hbc | ⟨hbc, hbc2⟩
  · exact Or.inl (charListLt_trans hab hbc)
  · exact Or.inl (hbc ▸ hab)
  · exact Or.inl (hab ▸ hbc)
  · exact Or.inr ⟨hab.trans hbc, strLe_trans hab2 hbc2⟩

/-! Case-insensitive comparison key: Python `str.lower()` (embedded for the
ASCII range via `Char.toLower`, which is what the repository's node names and
descriptions use). -/

def lowerStr (s : String) : String := ⟨s.data.map Char.toLower⟩

def lowerLe (a b : String) : Prop := strLe (lowerStr a) (lowerStr b)

instance : DecidableRel lowerLe := fun a b => instDecidableEqBool _ _

instance : IsTotal String lowerLe := ⟨fun a b => strLe_total _ _⟩

instance : IsTrans String lowerLe := ⟨fun _ _ _ h1 h2 => strLe_trans h1 h2⟩

instance : IsAntisymm (String × String) pairLe := by
  constructor
  intro a b hab hba
  rcases hab with hab | ⟨hab, hab2⟩ <;> rcases hba with hba | ⟨hba, hba2⟩
  · exact absurd hba (by simp [strLt, charListLt_asymm hab])
  · rw [hba] at hab
    exact absurd hab (by simp [strLt, charListLt_irrefl])
  · rw [hab] at hba
    exact absurd hba (by simp [strLt, charListLt_irrefl])
  · exact Prod.ext hab (strLe_antisymm hab2 hba2)

/-! Case-insensitive comparison key: Python `str.lower()` (embedded for the
ASCII range via `Char.toLower`, which covers the repository's node names and
descriptions).  `lowerKeyLe` adds a raw-key tie-break so the relation is
antisymmetric; Python leaves the relative order of keys with equal lowercase
forms to set-iteration order, which is unspecified, so any fixed tie order is
a faithful determinization. -/

def lowerKeyLe (a b : String) : Prop :=
  strLt (lowerStr a) (lowerStr b) ∨ (lowerStr a = lowerStr b ∧ strLe a b)

instance : DecidableRel lowerKeyLe := fun _ _ => instDecidableOr

instance : IsTotal String lowerKeyLe := by
  constructor
  intro a b
  by_cases h1 : lowerStr a = lowerStr b
  · rcases strLe_total a b with h | h
    · exact Or.inl (Or.inr ⟨h1, h⟩)
    · exact Or.inr (Or.inr ⟨h1.symm, h⟩)
  · rcases strLe_total (lowerStr a) (lowerStr b) with h | h
    · exact Or.inl (Or.inl (strLt_of_le_ne h h1))
    · exact Or.inr (Or.inl (strLt_of_le_ne h (Ne.symm h1)))

instance : IsTrans String lowerKeyLe := by
  constructor
  intro a b c hab hbc
  rcases hab with hab | ⟨hab, hab2⟩ <;> rcases hbc with hbc | ⟨hbc, hbc2⟩
  · exact Or.inl (charListLt_trans hab hbc)
  · exact Or.inl (hbc ▸ hab)
  · exact Or.inl (hab ▸ hbc)
  · exact Or.inr ⟨hab.trans hbc, strLe_trans hab2 hbc2⟩

instance : IsAntisymm String lowerKeyLe := by
  constructor
  intro a b hab hba
  rcases hab with hab | ⟨hab, hab2⟩ <;> rcases hba with hba | ⟨hba, hba2⟩
  · exact absurd hba (by simp [strLt, charListLt_asymm hab])
  · rw [hba] at hab
    exact absurd hab (by simp [strLt, charListLt_irrefl])
  · rw [hab] at hba
    exact absurd hba (by simp [strLt, charListLt_irrefl])
  · exact strLe_antisymm hab2 hba2

/-! A kernel-evaluable sort of a `Finset`: stable insertion sort lifted over
the underlying multiset.  Well-defined because the relation is a decidable
linear order, so any two sorted permutations of the same list coincide. -/

def finsetSort {α : Type} (r : α → α → Prop) [DecidableRel r] [IsTotal α r] [IsTrans α r]
    [IsAntisymm α r] (d : Finset α) : List α :=
  Quot.liftOn d.val (fun l => List.insertionSort r l)
    (fun l1 l2 h => List.eq_of_perm_of_sorted
      ((List.perm_insertionSort r l1).trans
        ((h : l1.Perm l2).trans (List.perm_insertionSort r l2).symm))
      (List.sorted_insertionSort r l1) (List.sorted_insertionSort r l2))

theorem finsetSort_perm {α : Type} (r : α → α → Prop) [DecidableRel r] [IsTotal α r]
    [IsTrans α r] [IsAntisymm α r] (d : Finset α) : (finsetSort r d : Multiset α) = d.val := by
  obtain ⟨⟨l⟩, hn⟩ := d
  exact Quot.sound (List.perm_insertionSort r l)

theorem mem_finsetSort {α : Type} (r : α → α → Prop) [DecidableRel r] [IsTotal α r]
    [IsTrans α r] [IsAntisymm α r] (d : Finset α) (a : α) :
    a ∈ finsetSort r d ↔ a ∈ d := by
  obtain ⟨⟨l⟩, hn⟩ := d
  exact (List.perm_insertionSort r l).mem_iff

theorem sorted_finsetSort {α : Type} (r : α → α → Prop) [DecidableRel r] [IsTotal α r]
    [IsTrans α r] [IsAntisymm α r] (d : Finset α) : List.Sorted r (finsetSort r d) := by
  obtain ⟨⟨l⟩, hn⟩ := d
  exact List.sorted_insertionSort r l

theorem nodup_finsetSort {α : Type} (r : α → α → Prop) [DecidableRel r] [IsTotal α r]
    [IsTrans α r] [IsAntisymm α r] (d : Finset α) : (finsetSort r d).Nodup := by
  obtain ⟨⟨l⟩, hn⟩ := d
  exact ((List.perm_insertionSort r l).nodup_iff).mpr hn

/-! ## Python dicts as insertion-ordered association lists -/

def dget {κ α : Type} [DecidableEq κ] (m : List (κ × α)) (k : κ) : Option α :=
  match m with
  | [] => none
  | (k', v) :: rest => if k' = k then some v else dget rest k

def dinsert {κ α : Type} [DecidableEq κ] (m : List (κ × α)) (k : κ) (v : α) :
    List (κ × α) :=
  match m with
  | [] => [(k, v)]
  | (k', v') :: rest => if k' = k then (k, v) :: rest else (k', v') :: dinsert rest k v

theorem dget_dinsert {κ α : Type} [DecidableEq κ] (m : List (κ × α)) (k k' : κ) (v : α) :
    dget (dinsert m k v) k' = if k = k' then some v else dget m k' := by
  induction m with
  | nil => simp [dget, dinsert]
  | cons p rest ih =>
    obtain ⟨pk, pv⟩ := p
    by_cases hpk : pk = k
    · subst hpk
      by_cases hkk : pk = k'
      · subst hkk; simp [dinsert, dget]
      · simp [dinsert, dget, hkk]
    · by_cases hkk : pk = k'
      · subst hkk
        have : k ≠ pk := fun h => hpk h.symm
        simp [dinsert, dget, hpk, this]
      · simp [dinsert, dget, hpk, hkk, ih]

theorem dget_eq_none_iff {κ α : Type} [DecidableEq κ] (m : List (κ × α)) (k : κ) :
    dget m k = none ↔ k ∉ m.map Prod.fst := by
  induction m with
  | nil => simp [dget]
  | cons p rest ih =>
    obtain ⟨pk, pv⟩ := p
    by_cases hpk : pk = k
    · subst hpk; simp [dget]
    · have hd : dget ((pk, pv) :: rest) k = dget rest k := by simp [dget, hpk]
      rw [hd, ih, List.map_cons]
      simp only [List.mem_cons, not_or]
      constructor
      · intro hr; exact ⟨fun h => hpk h.symm, hr⟩
      · exact fun h => h.2

theorem keys_dinsert {κ α : Type} [DecidableEq κ] (m : List (κ × α)) (k : κ) (v : α) :
    (dinsert m k v).map Prod.fst =
      if k ∈ m.map Prod.fst then m.map Prod.fst else m.map Prod.fst ++ [k] := by
  induction m with
  | nil => simp [dinsert]
  | cons p rest ih =>
    obtain ⟨pk, pv⟩ := p
    by_cases hpk : pk = k
    · subst hpk; simp [dinsert]
    · have hne : ¬ k = pk := fun h => hpk h.symm
      by_cases hmem : k ∈ rest.map Prod.fst <;> simp [dinsert, hpk, ih, hmem, hne]

theorem keys_dinsert_nodup {κ α : Type} [DecidableEq κ] (m : List (κ × α)) (k : κ) (v : α)
    (h : (m.map Prod.fst).Nodup) : ((dinsert m k v).map Prod.fst).Nodup := by
  rw [keys_dinsert]
  by_cases hmem : k ∈ m.map Prod.fst
  · simpa [hmem]
  · rw [if_neg hmem]
    refine List.Nodup.append h (List.nodup_singleton k) ?_
    intro a ha hak
    rw [List.mem_singleton] at hak
    subst hak
    exact hmem ha

/-! ## Data model (`pipewire_controller.py` dataclasses) -/

structure Port where
  id : Int
  name : String
  direction : String
  node_id : Int
  node_name : String
deriving DecidableEq

structure Node where
  id : Int
  name : String
  description : String
  media_class : String
  process_id : Option Int
  ports : List Port
deriving DecidableEq

def Node.has_output (n : Node) : Bool := n.ports.any (fun p => p.direction == "out")

def Node.has_input (n : Node) : Bool := n.ports.any (fun p => p.direction == "in")

structure Link where
  id : Int
  output_node_id : Int
  output_port_id : Int
  input_node_id : Int
  input_port_id : Int
deriving DecidableEq

/-- Snapshot: `nodes` is the Python dict id -> Node as an insertion-ordered
association list, `links` the link list. -/
structure PipeWireSnapshot where
  nodes : List (Int × Node)
  links : List Link
deriving DecidableEq

def PipeWireSnapshot.nodeValues (s : PipeWireSnapshot) : List Node := s.nodes.map Prod.snd

/-- Stable sort by `description.lower()` — Python
`sorted(..., key=lambda n: n.description.lower())`. -/
def sortNodesByDesc (ns : List Node) : List Node :=
  List.insertionSort (fun a b => lowerLe a.description b.description) ns

def PipeWireSnapshot.sources (s : PipeWireSnapshot) : List Node :=
  sortNodesByDesc (s.nodeValues.filter Node.has_output)

def PipeWireSnapshot.sinks (s : PipeWireSnapshot) : List Node :=
  sortNodesByDesc (s.nodeValues.filter Node.has_input)

/-! ## Routing state manager (`state_manager.py`) -/

structure ListEntry where
  key : String
  label : String
  available : Bool
  selected : Bool
deriving DecidableEq

structure RouteAction where
  op : String
  source_key : String
  target_key : String
deriving DecidableEq

/-- The mutable fields of `RoutingStateManager`.  The Python leading
underscores are dropped (`_source_labels` -> `source_labels`, and the
desired-pairs baseline `_desired_pairs` -> `desired_pairs`). -/
structure RoutingState where
  streaming_active : Bool
  auto_capture : Bool
  auto_streaming : Bool
  selected_sources : Finset String
  selected_targets : Finset String
  available_sources : List (String × Node)
  available_targets : List (String × Node)
  source_labels : List (String × String)
  target_labels : List (String × String)
  desired_pairs : Finset (String × String)

/-- `RoutingStateManager.__init__`. -/
def RoutingState.init : RoutingState :=
  ⟨false, false, false, ∅, ∅, [], [], [], [], ∅⟩

/-- `RoutingStateManager._key` / `_label`. -/
def nodeKey (n : Node) : String := n.name

def nodeLabel (n : Node) : String := n.description

/-- Python dict comprehension keyed by node name (`{self._key(n): n for n in ...}`):
later duplicates overwrite in place. -/
def dictOfNodes (ns : List Node) : List (String × Node) :=
  ns.foldl (fun m n => dinsert m (nodeKey n) n) []

/-- `RoutingStateManager.update_available`. -/
def update_available (s : RoutingState) (sources targets : List Node) : RoutingState :=
  let avS := dictOfNodes sources
  let avT := dictOfNodes targets
  let sl := avS.foldl (fun m kv => dinsert m kv.1 (nodeLabel kv.2)) s.source_labels
  let tl := avT.foldl (fun m kv => dinsert m kv.1 (nodeLabel kv.2)) s.target_labels
  { s with available_sources := avS, available_targets := avT,
           source_labels := sl, target_labels := tl }

/-- `RoutingStateManager.set_source_selection`. -/
def set_source_selection (s : RoutingState) (keys : Finset String) : RoutingState :=
  if s.auto_capture then s else { s with selected_sources := keys }

/-- `RoutingStateManager.set_target_selection`. -/
def set_target_selection (s : RoutingState) (keys : Finset String) : RoutingState :=
  if s.auto_streaming then s else { s with selected_targets := keys }

/-- `RoutingStateManager.clear_sources`. -/
def clear_sources (s : RoutingState) : RoutingState :=
  if ¬ s.auto_capture then { s with selected_sources := ∅ } else s

/-- `RoutingStateManager.clear_targets`. -/
def clear_targets (s : RoutingState) : RoutingState :=
  if ¬ s.auto_streaming then { s with selected_targets := ∅ } else s

/-- `RoutingStateManager._build_entries`.  `sorted(keys, key=str.lower)` is
embedded through `lowerKeyLe` (lowercased comparison with a raw-key
tie-break, see above). -/
def build_entries (selected : Finset String) (available : List (String × Node))
    (labels : List (String × String)) : List ListEntry :=
  let avKeys : Finset String := (available.map Prod.fst).toFinset
  let keys : Finset String := avKeys ∪ selected.filter (fun k => k ∉ avKeys)
  (finsetSort lowerKeyLe keys).map (fun key =>
    let is_available := decide (key ∈ avKeys)
    let base_label := (dget labels key).getD key
    let label := if is_available then base_label else base_label ++ " (unavailable)"
    ⟨key, label, is_available, decide (key ∈ selected)⟩)

/-- `RoutingStateManager.source_entries`. -/
def source_entries (s : RoutingState) : List ListEntry :=
  build_entries s.selected_sources s.available_sources s.source_labels

/-- `RoutingStateManager.target_entries`. -/
def target_entries (s : RoutingState) : List ListEntry :=
  build_entries s.selected_targets s.available_targets s.target_labels

/-- `RoutingStateManager._linked_pairs`: `by_id = {node.id: key(node) ...}`
then every link whose two endpoint node ids both resolve. -/
def by_id_keys (snap : PipeWireSnapshot) : List (Int × String) :=
  snap.nodeValues.foldl (fun m n => dinsert m n.id (nodeKey n)) []

def linked_pairs (snap : PipeWireSnapshot) : Finset (String × String) :=
  (snap.links.filterMap (fun l =>
    match dget (by_id_keys snap) l.output_node_id, dget (by_id_keys snap) l.input_node_id with
    | some sk, some tk => some (sk, tk)
    | _, _ => none)).toFinset

def snap_source_keys (snap : PipeWireSnapshot) : Finset String :=
  (snap.sources.map nodeKey).toFinset

def snap_sink_keys (snap : PipeWireSnapshot) : Finset String :=
  (snap.sinks.map nodeKey).toFinset

/-- The capture-side pool of `compute_actions` (line 102 of
`state_manager.py`). -/
def source_pool (s : RoutingState) : Finset String :=
  if s.auto_capture then (s.available_sources.map Prod.fst).toFinset else s.selected_sources

/-- The playback-side pool of `compute_actions` (line 103). -/
def target_pool (s : RoutingState) : Finset String :=
  if s.auto_streaming then (s.available_targets.map Prod.fst).toFinset else s.selected_targets

/-- The `desired_pairs` set built by `compute_actions` (lines 104-108): hub
mode when both hub keys are supplied, else the full cross product. -/
def desired_pairs_of (s : RoutingState) (virtual_sink_key virtual_source_key : Option String) :
    Finset (String × String) :=
  match virtual_sink_key, virtual_source_key with
  | some sk, some rk =>
      (source_pool s).image (fun k => (k, sk)) ∪ (target_pool s).image (fun k => (rk, k))
  | _, _ => Finset.product (source_pool s) (target_pool s)

/-- Python `sorted` over a set of `(str, str)` pairs. -/
def sortedPairs (d : Finset (String × String)) : List (String × String) :=
  finsetSort pairLe d

def mkUnlink (p : String × String) : RouteAction := ⟨"unlink", p.1, p.2⟩

def mkLink (p : String × String) : RouteAction := ⟨"link", p.1, p.2⟩

/-- The emission condition of the link loop (lines 117-121): both endpoints
available in the fresh snapshot and the pair not already linked. -/
def link_cond (snap : PipeWireSnapshot) (p : String × String) : Bool :=
  decide (p.1 ∈ snap_source_keys snap) && decide (p.2 ∈ snap_sink_keys snap) &&
    ! decide (p ∈ linked_pairs snap)

def unlink_actions (d : Finset (String × String)) : List RouteAction :=
  (sortedPairs d).map mkUnlink

def link_actions (snap : PipeWireSnapshot) (d : Finset (String × String)) : List RouteAction :=
  ((sortedPairs d).filter (link_cond snap)).map mkLink

/-- `RoutingStateManager.compute_actions`: returns the emitted action list and
the state manager with its updated baseline. -/
def compute_actions (s : RoutingState) (snap : PipeWireSnapshot)
    (virtual_sink_key virtual_source_key : Option String) :
    List RouteAction × RoutingState :=
  let desired := desired_pairs_of s virtual_sink_key virtual_source_key
  if s.streaming_active then
    (unlink_actions (s.desired_pairs \ desired) ++ link_actions snap desired,
     { s with desired_pairs := desired })
  else
    (unlink_actions s.desired_pairs, { s with desired_pairs := ∅ })

/-! ## Helper lemmas about `compute_actions` -/

def actionPair (a : RouteAction) : String × String := (a.source_key, a.target_key)

theorem sortedPairs_empty : sortedPairs ∅ = [] := rfl

theorem desired_pairs_of_set_baseline (s : RoutingState) (d : Finset (String × String))
    (vk vr : Option String) :
    desired_pairs_of { s with desired_pairs := d } vk vr = desired_pairs_of s vk vr := rfl

theorem filter_link_map_mkUnlink (l : List (String × String)) :
    (l.map mkUnlink).filter (fun a => a.op == "link") = [] := by
  induction l with
  | nil => rfl
  | cons p rest ih =>
    have hf : ((mkUnlink p).op == "link") = false := rfl
    simp [List.filter_cons, hf, ih]

theorem filter_link_map_mkLink (l : List (String × String)) :
    (l.map mkLink).filter (fun a => a.op == "link") = l.map mkLink := by
  induction l with
  | nil => rfl
  | cons p rest ih =>
    have hf : ((mkLink p).op == "link") = true := rfl
    simp [List.filter_cons, hf, ih]

theorem filter_link_unlink_actions (d : Finset (String × String)) :
    (unlink_actions d).filter (fun a => a.op == "link") = [] :=
  filter_link_map_mkUnlink _

theorem filter_link_link_actions (snap : PipeWireSnapshot) (d : Finset (String × String)) :
    (link_actions snap d).filter (fun a => a.op == "link") = link_actions snap d :=
  filter_link_map_mkLink _

theorem map_actionPair_map_mkUnlink (l : List (String × String)) :
    ((l.map mkUnlink).map actionPair) = l := by
  induction l with
  | nil => rfl
  | cons p rest ih => simp [mkUnlink, actionPair, ih]

theorem map_actionPair_map_mkLink (l : List (String × String)) :
    ((l.map mkLink).map actionPair) = l := by
  induction l with
  | nil => rfl
  | cons p rest ih => simp [mkLink, actionPair, ih]

theorem mkUnlink_injective : Function.Injective mkUnlink := by
  intro p q h
  exact Prod.ext (congrArg RouteAction.source_key h) (congrArg RouteAction.target_key h)

theorem link_cond_iff (snap : PipeWireSnapshot) (p : String × String) :
    link_cond snap p = true ↔
      p.1 ∈ snap_source_keys snap ∧ p.2 ∈ snap_sink_keys snap ∧ p ∉ linked_pairs snap := by
  simp [link_cond, and_assoc]

theorem compute_actions_on (s : RoutingState) (snap : PipeWireSnapshot)
    (vk vr : Option String) (hb : s.streaming_active = true) :
    compute_actions s snap vk vr
      = (unlink_actions (s.desired_pairs \ desired_pairs_of s vk vr)
          ++ link_actions snap (desired_pairs_of s vk vr),
         { s with desired_pairs := desired_pairs_of s vk vr }) := by
  simp [compute_actions, hb]

theorem compute_actions_off (s : RoutingState) (snap : PipeWireSnapshot)
    (vk vr : Option String) (hb : s.streaming_active = false) :
    compute_actions s snap vk vr
      = (unlink_actions s.desired_pairs, { s with desired_pairs := ∅ }) := by
  simp [compute_actions, hb]

theorem compute_actions_mem (s : RoutingState) (snap : PipeWireSnapshot)
    (vk vr : Option String) (a : RouteAction)
    (ha : a ∈ (compute_actions s snap vk vr).1) :
    a.op = "unlink" ∨
      (a.op = "link" ∧ a.source_key ∈ snap_source_keys snap ∧
        a.target_key ∈ snap_sink_keys snap) := by
  rcases hb : s.streaming_active with _ | _
  · rw [compute_actions_off s snap vk vr hb] at ha
    replace ha : a ∈ (sortedPairs s.desired_pairs).map mkUnlink := ha
    obtain ⟨p, _, hpa⟩ := List.mem_map.mp ha
    exact Or.inl (hpa ▸ rfl)
  · rw [compute_actions_on s snap vk vr hb] at ha
    replace ha : a ∈ unlink_actions (s.desired_pairs \ desired_pairs_of s vk vr)
        ++ link_actions snap (desired_pairs_of s vk vr) := ha
    rcases List.mem_append.mp ha with h | h
    · obtain ⟨p, _, hpa⟩ := List.mem_map.mp h
      exact Or.inl (hpa ▸ rfl)
    · obtain ⟨p, hpf, hpa⟩ := List.mem_map.mp h
      obtain ⟨_, hcond⟩ := List.mem_filter.mp hpf
      obtain ⟨h1, h2, _⟩ := (link_cond_iff snap p).mp hcond
      exact Or.inr ⟨hpa ▸ rfl, hpa ▸ h1, hpa ▸ h2⟩

/-! ## C1 -/

def c1_nodeA : Node := ⟨1, "a", "a", "Audio", none, [⟨10, "out0", "out", 1, "a"⟩]⟩

def c1_nodeX : Node := ⟨2, "x", "x", "Audio", none, [⟨20, "in0", "in", 2, "x"⟩]⟩

def c1_snap : PipeWireSnapshot := ⟨[(1, c1_nodeA), (2, c1_nodeX)], []⟩

def c1_state : RoutingState :=
  ⟨true, false, false, {"a"}, {"x"}, [("a", c1_nodeA)], [("x", c1_nodeX)], [], [], ∅⟩

/-- C1 counterexample: with streaming active, manual selections {a}/{x}, a
snapshot in which both endpoints are available and no link exists, the first
`compute_actions` call emits `link(a,x)` — and an immediate second call with
the identical snapshot and no state change emits `link(a,x)` again (the
snapshot still shows the pair unlinked), so the second call's action list is
not empty and the claim as stated fails. -/
theorem c1_second_call_not_empty :
    (compute_actions (compute_actions c1_state c1_snap none none).2 c1_snap none none).1
        = [⟨"link", "a", "x"⟩] ∧
      (compute_actions (compute_actions c1_state c1_snap none none).2 c1_snap none none).1
        ≠ [] :=
  ⟨by decide, by decide⟩

/-- C1 (amended): an immediate second `compute_actions` call with the same
snapshot, the same hub keys and no intervening state change returns exactly
the link actions of the first call (stale-route unlinks are never repeated);
in particular the second call is empty whenever the first call emitted no
link action — always the case when streaming is inactive, or when the
snapshot already links every desired available pair. -/
theorem compute_actions_second_call (s : RoutingState) (snap : PipeWireSnapshot)
    (vk vr : Option String) :
    (compute_actions (compute_actions s snap vk vr).2 snap vk vr).1
      = ((compute_actions s snap vk vr).1.filter (fun a => a.op == "link")) := by
  rcases hb : s.streaming_active with _ | _
  · rw [compute_actions_off s snap vk vr hb,
      compute_actions_off _ snap vk vr (by simpa using hb)]
    show unlink_actions (∅ : Finset (String × String))
        = (unlink_actions s.desired_pairs).filter (fun a => a.op == "link")
    rw [filter_link_unlink_actions]
    rfl
  · have h1 := compute_actions_on s snap vk vr hb
    have h2 : (compute_actions s snap vk vr).2
        = { s with desired_pairs := desired_pairs_of s vk vr } := by rw [h1]
    rw [h2, compute_actions_on _ snap vk vr (by simpa using hb), h1]
    show unlink_actions (desired_pairs_of s vk vr \ desired_pairs_of s vk vr)
        ++ link_actions snap (desired_pairs_of s vk vr)
      = (unlink_actions (s.desired_pairs \ desired_pairs_of s vk vr)
          ++ link_actions snap (desired_pairs_of s vk vr)).filter (fun a => a.op == "link")
    rw [Finset.sdiff_self, List.filter_append, filter_link_unlink_actions,
      filter_link_link_actions]
    rfl

/-! ## C2 -/

def c2_state : RoutingState :=
  ⟨true, false, false, {"ghost"}, ∅, [], [], [("ghost", "Ghost")], [], ∅⟩

def c2_snap : PipeWireSnapshot := ⟨[], []⟩

/-- C2 counterexample: "ghost" is manually selected but absent from the
stored availability map and from the snapshot, yet the `desired_pairs` set
built by `compute_actions` (and stored as the new baseline) contains the
pair ("ghost", "vsink") — contradicting the claim that no pair involving the
key enters `desired_pairs` while it is unavailable. -/
theorem c2_desired_pairs_keeps_missing_key :
    "ghost" ∈ c2_state.selected_sources ∧
      dget c2_state.available_sources "ghost" = none ∧
      "ghost" ∉ snap_source_keys c2_snap ∧
      ("ghost", "vsink") ∈ desired_pairs_of c2_state (some "vsink") (some "vsrc") ∧
      ("ghost", "vsink")
        ∈ (compute_actions c2_state c2_snap (some "vsink") (some "vsrc")).2.desired_pairs :=
  ⟨by decide, by decide, by decide, by decide, by decide⟩

/-- C2 (amended): a manually selected key absent from the current
availability map appears in that role's entry list as unavailable, with its
label suffixed by " (unavailable)"; and while the key is absent from the
snapshot's availability sets, no emitted link action involves it (its pairs
do remain in `desired_pairs` until it reappears, which the counterexample
shows). -/
theorem unavailable_selected_key (s : RoutingState) (k : String)
    (hsel : k ∈ s.selected_sources)
    (hunavail : dget s.available_sources k = none) :
    (⟨k, (dget s.source_labels k).getD k ++ " (unavailable)", false, true⟩
        ∈ source_entries s) ∧
      (∀ snap vk vr a, a ∈ (compute_actions s snap vk vr).1 → a.op = "link" →
        (k ∉ snap_source_keys snap → a.source_key ≠ k) ∧
        (k ∉ snap_sink_keys snap → a.target_key ≠ k)) := by
  constructor
  · have hk : k ∉ ((s.available_sources.map Prod.fst).toFinset : Finset String) := by
      rw [List.mem_toFinset]
      exact (dget_eq_none_iff _ _).mp hunavail
    refine List.mem_map.mpr ⟨k, ?_, ?_⟩
    · rw [mem_finsetSort]
      exact Finset.mem_union_right _ (Finset.mem_filter.mpr ⟨hsel, by simpa using hk⟩)
    · simp [hk, hsel]
  · intro snap vk vr a ha hop
    rcases compute_actions_mem s snap vk vr a ha with h | ⟨_, h1, h2⟩
    · rw [hop] at h
      exact absurd h (by decide)
    · exact ⟨fun hk1 hak => hk1 (hak ▸ h1), fun hk2 hak => hk2 (hak ▸ h2)⟩

def c2w_state : RoutingState :=
  ⟨false, false, false, {"mic"}, ∅, [], [], [("mic", "Microphone")], [], ∅⟩

/-- C2 witness: the amended theorem applied to a concrete state whose
selection holds the absent key "mic" with stored label "Microphone". -/
theorem unavailable_selected_key_witness :
    ("mic" ∈ c2w_state.selected_sources ∧
        dget c2w_state.available_sources "mic" = none) ∧
      ((⟨"mic", (dget c2w_state.source_labels "mic").getD "mic" ++ " (unavailable)",
          false, true⟩ ∈ source_entries c2w_state) ∧
        (∀ snap vk vr a, a ∈ (compute_actions c2w_state snap vk vr).1 → a.op = "link" →
          ("mic" ∉ snap_source_keys snap → a.source_key ≠ "mic") ∧
          ("mic" ∉ snap_sink_keys snap → a.target_key ≠ "mic"))) :=
  ⟨⟨by decide, by decide⟩, unavailable_selected_key c2w_state "mic" (by decide) (by decide)⟩

/-! ## C4 -/

/-- C4: with streaming inactive, `compute_actions` emits exactly one unlink
action per pair of the current baseline in ascending lexicographic order of
(sourceKey, targetKey), clears the baseline, and any immediately following
call (streaming still inactive) returns an empty action list. -/
theorem compute_actions_full_teardown (s : RoutingState) (snap : PipeWireSnapshot)
    (vk vr : Option String) (hs : s.streaming_active = false) :
    (compute_actions s snap vk vr).1 = (sortedPairs s.desired_pairs).map mkUnlink ∧
      List.Sorted pairLe
        (((compute_actions s snap vk vr).1).map actionPair) ∧
      ((compute_actions s snap vk vr).1).Nodup ∧
      (∀ p, p ∈ s.desired_pairs ↔ mkUnlink p ∈ (compute_actions s snap vk vr).1) ∧
      (compute_actions s snap vk vr).2.desired_pairs = ∅ ∧
      (∀ snap2 vk2 vr2,
        (compute_actions (compute_actions s snap vk vr).2 snap2 vk2 vr2).1 = []) := by
  have h1 := compute_actions_off s snap vk vr hs
  have hfst : (compute_actions s snap vk vr).1 = (sortedPairs s.desired_pairs).map mkUnlink := by
    rw [h1]; rfl
  have hsnd : (compute_actions s snap vk vr).2 = { s with desired_pairs := ∅ } := by rw [h1]
  refine ⟨hfst, ?_, ?_, ?_, by rw [hsnd], ?_⟩
  · rw [hfst, map_actionPair_map_mkUnlink]
    exact sorted_finsetSort pairLe s.desired_pairs
  · rw [hfst]
    exact (nodup_finsetSort pairLe s.desired_pairs).map mkUnlink_injective
  · intro p
    rw [hfst]
    constructor
    · intro hp
      exact List.mem_map_of_mem mkUnlink ((mem_finsetSort pairLe _ p).mpr hp)
    · intro hp
      obtain ⟨q, hq, hqe⟩ := List.mem_map.mp hp
      rw [← mkUnlink_injective hqe]
      exact (mem_finsetSort pairLe _ q).mp hq
  · intro snap2 vk2 vr2
    rw [hsnd, compute_actions_off _ snap2 vk2 vr2 (by simpa using hs)]
    rfl

def c4_state : RoutingState :=
  ⟨false, false, false, ∅, ∅, [], [], [], [], {("b", "y"), ("a", "x")}⟩

/-- C4 witness: the teardown theorem applied to a concrete inactive state
with baseline {(b,y), (a,x)}; the emitted list evaluates to the two unlinks
in ascending lexicographic order. -/
theorem compute_actions_full_teardown_witness :
    c4_state.streaming_active = false ∧
      ((compute_actions c4_state ⟨[], []⟩ none none).1
          = (sortedPairs c4_state.desired_pairs).map mkUnlink ∧
        List.Sorted pairLe (((compute_actions c4_state ⟨[], []⟩ none none).1).map actionPair) ∧
        ((compute_actions c4_state ⟨[], []⟩ none none).1).Nodup ∧
        (∀ p, p ∈ c4_state.desired_pairs ↔
          mkUnlink p ∈ (compute_actions c4_state ⟨[], []⟩ none none).1) ∧
        (compute_actions c4_state ⟨[], []⟩ none none).2.desired_pairs = ∅ ∧
        (∀ snap2 vk2 vr2,
          (compute_actions (compute_actions c4_state ⟨[], []⟩ none none).2 snap2 vk2 vr2).1
            = [])) ∧
      (compute_actions c4_state ⟨[], []⟩ none none).1
        = [⟨"unlink", "a", "x"⟩, ⟨"unlink", "b", "y"⟩] :=
  ⟨rfl, compute_actions_full_teardown c4_state ⟨[], []⟩ none none rfl, by decide⟩

/-! ## C5 -/

/-- C5: every action list `compute_actions` returns is ordered: with
streaming active it is the stale unlinks (baseline minus desired, ascending
lexicographic) followed by the links (desired pairs passing the
availability/not-linked condition, ascending lexicographic); with streaming
inactive it is the baseline unlinks in ascending lexicographic order.  The
final conjunct characterises exactly which pairs the link loop emits. -/
theorem compute_actions_ordering (s : RoutingState) (snap : PipeWireSnapshot)
    (vk vr : Option String) :
    (compute_actions s snap vk vr).1
        = (if s.streaming_active then
            unlink_actions (s.desired_pairs \ desired_pairs_of s vk vr)
              ++ link_actions snap (desired_pairs_of s vk vr)
          else unlink_actions s.desired_pairs) ∧
      List.Sorted pairLe
        ((unlink_actions (s.desired_pairs \ desired_pairs_of s vk vr)).map actionPair) ∧
      List.Sorted pairLe ((link_actions snap (desired_pairs_of s vk vr)).map actionPair) ∧
      List.Sorted pairLe ((unlink_actions s.desired_pairs).map actionPair) ∧
      (∀ a ∈ unlink_actions (s.desired_pairs \ desired_pairs_of s vk vr), a.op = "unlink") ∧
      (∀ a ∈ link_actions snap (desired_pairs_of s vk vr), a.op = "link") ∧
      (∀ p, mkLink p ∈ link_actions snap (desired_pairs_of s vk vr) ↔
        (p ∈ desired_pairs_of s vk vr ∧ p.1 ∈ snap_source_keys snap ∧
          p.2 ∈ snap_sink_keys snap ∧ p ∉ linked_pairs snap)) := by
  refine ⟨?_, ?_, ?_, ?_, ?_, ?_, ?_⟩
  · rcases hb : s.streaming_active with _ | _
    · rw [compute_actions_off s snap vk vr hb]; rfl
    · rw [compute_actions_on s snap vk vr hb]; rfl
  · rw [unlink_actions, map_actionPair_map_mkUnlink]
    exact sorted_finsetSort pairLe _
  · rw [link_actions, map_actionPair_map_mkLink]
    exact List.Pairwise.sublist (List.filter_sublist _) (sorted_finsetSort pairLe _)
  · rw [unlink_actions, map_actionPair_map_mkUnlink]
    exact sorted_finsetSort pairLe _
  · intro a ha
    obtain ⟨p, _, hpa⟩ := List.mem_map.mp ha
    exact hpa ▸ rfl
  · intro a ha
    obtain ⟨p, _, hpa⟩ := List.mem_map.mp ha
    exact hpa ▸ rfl
  · intro p
    constructor
    · intro hp
      obtain ⟨q, hq, hqe⟩ := List.mem_map.mp hp
      obtain ⟨hqs, hqc⟩ := List.mem_filter.mp hq
      have hpq : q = p :=
        Prod.ext (congrArg RouteAction.source_key hqe) (congrArg RouteAction.target_key hqe)
      subst hpq
      exact ⟨(mem_finsetSort pairLe _ q).mp hqs, (link_cond_iff snap q).mp hqc⟩
    · rintro ⟨hpd, hc⟩
      refine List.mem_map_of_mem mkLink (List.mem_filter.mpr ?_)
      exact ⟨(mem_finsetSort pairLe _ p).mpr hpd, (link_cond_iff snap p).mpr hc⟩

def c5_state : RoutingState :=
  ⟨true, false, false, {"a"}, {"x", "y"}, [], [], [], [], {("a", "z")}⟩

def c5_nodeA : Node := ⟨1, "a", "a", "Audio", none, [⟨10, "o", "out", 1, "a"⟩]⟩

def c5_nodeX : Node := ⟨2, "x", "x", "Audio", none, [⟨20, "i", "in", 2, "x"⟩]⟩

def c5_nodeY : Node := ⟨3, "y", "y", "Audio", none, [⟨30, "i", "in", 3, "y"⟩]⟩

def c5_snap : PipeWireSnapshot := ⟨[(1, c5_nodeA), (2, c5_nodeX), (3, c5_nodeY)], []⟩

/-- C5 witness: the ordering theorem applied to a concrete streaming-on state
whose baseline holds a stale pair (a,z); the result evaluates to the stale
unlink followed by the two links in ascending lexicographic order. -/
theorem compute_actions_ordering_witness :
    ((compute_actions c5_state c5_snap none none).1
          = (if c5_state.streaming_active then
              unlink_actions (c5_state.desired_pairs \ desired_pairs_of c5_state none none)
                ++ link_actions c5_snap (desired_pairs_of c5_state none none)
            else unlink_actions c5_state.desired_pairs) ∧
        List.Sorted pairLe
          ((unlink_actions
            (c5_state.desired_pairs \ desired_pairs_of c5_state none none)).map actionPair) ∧
        List.Sorted pairLe
          ((link_actions c5_snap (desired_pairs_of c5_state none none)).map actionPair) ∧
        List.Sorted pairLe ((unlink_actions c5_state.desired_pairs).map actionPair) ∧
        (∀ a ∈ unlink_actions (c5_state.desired_pairs \ desired_pairs_of c5_state none none),
          a.op = "unlink") ∧
        (∀ a ∈ link_actions c5_snap (desired_pairs_of c5_state none none), a.op = "link") ∧
        (∀ p, mkLink p ∈ link_actions c5_snap (desired_pairs_of c5_state none none) ↔
          (p ∈ desired_pairs_of c5_state none none ∧ p.1 ∈ snap_source_keys c5_snap ∧
            p.2 ∈ snap_sink_keys c5_snap ∧ p ∉ linked_pairs c5_snap))) ∧
      (compute_actions c5_state c5_snap none none).1
        = [⟨"unlink", "a", "z"⟩, ⟨"link", "a", "x"⟩, ⟨"link", "a", "y"⟩] :=
  ⟨compute_actions_ordering c5_state c5_snap none none, by decide⟩

/-! ## C6 -/

/-- C6: while a role's auto mode is enabled, that role's selection setters
are no-ops on the whole state, and the pool `compute_actions` uses for that
role is the full set of currently available keys, regardless of the stored
manual selection; capture side and streaming side symmetrically. -/
theorem auto_mode_exclusivity (s : RoutingState) (keys : Finset String) :
    (s.auto_capture = true →
      set_source_selection s keys = s ∧ clear_sources s = s ∧
        source_pool s = (s.available_sources.map Prod.fst).toFinset) ∧
    (s.auto_streaming = true →
      set_target_selection s keys = s ∧ clear_targets s = s ∧
        target_pool s = (s.available_targets.map Prod.fst).toFinset) := by
  constructor
  · intro h
    refine ⟨?_, ?_, ?_⟩ <;>
      simp [set_source_selection, clear_sources, source_pool, h]
  · intro h
    refine ⟨?_, ?_, ?_⟩ <;>
      simp [set_target_selection, clear_targets, target_pool, h]

def c6_node : Node := ⟨1, "n", "n", "Audio", none, []⟩

def c6_state : RoutingState :=
  ⟨false, true, true, {"old"}, {"old2"}, [("n", c6_node)], [("m", c6_node)], [], [], ∅⟩

/-- C6 witness: both auto modes enabled on a concrete state with a stale
manual selection; the setters are no-ops and the pools equal the available
key sets. -/
theorem auto_mode_exclusivity_witness :
    (c6_state.auto_capture = true ∧ c6_state.auto_streaming = true) ∧
      (set_source_selection c6_state {"p"} = c6_state ∧ clear_sources c6_state = c6_state ∧
        source_pool c6_state = (c6_state.available_sources.map Prod.fst).toFinset) ∧
      (set_target_selection c6_state {"p"} = c6_state ∧ clear_targets c6_state = c6_state ∧
        target_pool c6_state = (c6_state.available_targets.map Prod.fst).toFinset) :=
  ⟨⟨rfl, rfl⟩, (auto_mode_exclusivity c6_state {"p"}).1 rfl,
    (auto_mode_exclusivity c6_state {"p"}).2 rfl⟩

/-! ## C10 -/

theorem dget_foldl_dinsert {α : Type} (f : Node → α) (ps : List (String × Node))
    (m0 : List (String × α)) (k : String) (hnd : (ps.map Prod.fst).Nodup) :
    dget (ps.foldl (fun m kv => dinsert m kv.1 (f kv.2)) m0) k
      = match dget ps k with
        | some v => some (f v)
        | none => dget m0 k := by
  induction ps generalizing m0 with
  | nil => rfl
  | cons p rest ih =>
    obtain ⟨pk, pv⟩ := p
    have hnd' : (rest.map Prod.fst).Nodup := (List.nodup_cons.mp (by simpa using hnd)).2
    have hpk_not : pk ∉ rest.map Prod.fst := (List.nodup_cons.mp (by simpa using hnd)).1
    rw [List.foldl_cons, ih _ hnd']
    by_cases hk : pk = k
    · subst hk
      have hrest : dget rest pk = none := (dget_eq_none_iff _ _).mpr hpk_not
      rw [hrest]
      have hhead : dget ((pk, pv) :: rest) pk = some pv := by simp [dget]
      rw [hhead, dget_dinsert]
      simp
    · have hhead : dget ((pk, pv) :: rest) k = dget rest k := by simp [dget, hk]
      rw [hhead]
      cases hrk : dget rest k with
      | some v => rfl
      | none => rw [dget_dinsert]; simp [hk]

theorem dictOfNodes_keys_nodup (ns : List Node) :
    ((dictOfNodes ns).map Prod.fst).Nodup := by
  have h : ∀ m : List (String × Node), (m.map Prod.fst).Nodup →
      ((ns.foldl (fun m n => dinsert m (nodeKey n) n) m).map Prod.fst).Nodup := by
    induction ns with
    | nil => exact fun m hm => hm
    | cons n rest ih => exact fun m hm => ih _ (keys_dinsert_nodup _ _ _ hm)
  exact h [] (by simp)

theorem mem_build_entries_unavailable (selected : Finset String)
    (available : List (String × Node)) (labels : List (String × String)) (k : String)
    (hsel : k ∈ selected) (hk : dget available k = none) :
    (⟨k, (dget labels k).getD k ++ " (unavailable)", false, true⟩
      ∈ build_entries selected available labels) := by
  have hk' : k ∉ ((available.map Prod.fst).toFinset : Finset String) := by
    rw [List.mem_toFinset]
    exact (dget_eq_none_iff _ _).mp hk
  refine List.mem_map.mpr ⟨k, ?_, ?_⟩
  · rw [mem_finsetSort]
    exact Finset.mem_union_right _ (Finset.mem_filter.mpr ⟨hsel, by simpa using hk'⟩)
  · simp [hk', hsel]

/-- C10: `update_available` replaces only the two availability maps and
merges the new descriptions into the label maps; selections, mode flags and
the desired-pairs baseline are untouched, a label-map entry is never
removed (a key outside the new availability keeps its previous binding, a
key inside it is added or overwritten with the node's description), and a
selected key that vanished from availability keeps its last-seen label —
rendered with the " (unavailable)" suffix — in subsequent entry output. -/
theorem update_available_frame (s : RoutingState) (sources targets : List Node) :
    (update_available s sources targets).streaming_active = s.streaming_active ∧
      (update_available s sources targets).auto_capture = s.auto_capture ∧
      (update_available s sources targets).auto_streaming = s.auto_streaming ∧
      (update_available s sources targets).selected_sources = s.selected_sources ∧
      (update_available s sources targets).selected_targets = s.selected_targets ∧
      (update_available s sources targets).desired_pairs = s.desired_pairs ∧
      (update_available s sources targets).available_sources = dictOfNodes sources ∧
      (update_available s sources targets).available_targets = dictOfNodes targets ∧
      (∀ k, dget (update_available s sources targets).source_labels k
        = match dget (dictOfNodes sources) k with
          | some n => some (nodeLabel n)
          | none => dget s.source_labels k) ∧
      (∀ k, dget (update_available s sources targets).target_labels k
        = match dget (dictOfNodes targets) k with
          | some n => some (nodeLabel n)
          | none => dget s.target_labels k) ∧
      (∀ k lbl, k ∈ s.selected_sources → dget (dictOfNodes sources) k = none →
        dget s.source_labels k = some lbl →
        (⟨k, lbl ++ " (unavailable)", false, true⟩
          ∈ source_entries (update_available s sources targets))) ∧
      (∀ k lbl, k ∈ s.selected_targets → dget (dictOfNodes targets) k = none →
        dget s.target_labels k = some lbl →
        (⟨k, lbl ++ " (unavailable)", false, true⟩
          ∈ target_entries (update_available s sources targets))) := by
  have hsl : ∀ k, dget (update_available s sources targets).source_labels k
      = match dget (dictOfNodes sources) k with
        | some n => some (nodeLabel n)
        | none => dget s.source_labels k := by
    intro k
    exact dget_foldl_dinsert nodeLabel (dictOfNodes sources) s.source_labels k
      (dictOfNodes_keys_nodup sources)
  have htl : ∀ k, dget (update_available s sources targets).target_labels k
      = match dget (dictOfNodes targets) k with
        | some n => some (nodeLabel n)
        | none => dget s.target_labels k := by
    intro k
    exact dget_foldl_dinsert nodeLabel (dictOfNodes targets) s.target_labels k
      (dictOfNodes_keys_nodup targets)
  refine ⟨rfl, rfl, rfl, rfl, rfl, rfl, rfl, rfl, hsl, htl, ?_, ?_⟩
  · intro k lbl hksel hkav hklbl
    have hlab : dget (update_available s sources targets).source_labels k = some lbl := by
      rw [hsl k, hkav, hklbl]
    have := mem_build_entries_unavailable s.selected_sources (dictOfNodes sources)
      (update_available s sources targets).source_labels k hksel hkav
    rw [hlab] at this
    exact this
  · intro k lbl hksel hkav hklbl
    have hlab : dget (update_available s sources targets).target_labels k = some lbl := by
      rw [htl k, hkav, hklbl]
    have := mem_build_entries_unavailable s.selected_targets (dictOfNodes targets)
      (update_available s sources targets).target_labels k hksel hkav
    rw [hlab] at this
    exact this

def c10_node : Node := ⟨5, "n", "New Device", "Audio", none, []⟩

def c10_state : RoutingState :=
  ⟨true, false, false, {"g"}, ∅, [("g", c10_node)], [], [("g", "Gone")], [], {("g", "t")}⟩

/-- C10 witness: updating availability to a list without the selected key
"g" keeps the selection, baseline and label map, and "g" shows up in the
entries with its remembered label "Gone (unavailable)". -/
theorem update_available_frame_witness :
    (update_available c10_state [c10_node] []).selected_sources = c10_state.selected_sources ∧
      (update_available c10_state [c10_node] []).desired_pairs = c10_state.desired_pairs ∧
      (update_available c10_state [c10_node] []).streaming_active = c10_state.streaming_active ∧
      dget (update_available c10_state [c10_node] []).source_labels "g"
        = dget c10_state.source_labels "g" ∧
      (⟨"g", "Gone" ++ " (unavailable)", false, true⟩
        ∈ source_entries (update_available c10_state [c10_node] [])) := by
  have h := update_available_frame c10_state [c10_node] []
  refine ⟨h.2.2.2.1, h.2.2.2.2.2.1, h.1, ?_, ?_⟩
  · rw [h.2.2.2.2.2.2.2.2.1 "g"]
    rfl
  · exact h.2.2.2.2.2.2.2.2.2.2.1 "g" "Gone" (by decide) (by decide) (by decide)

/-! ## Node classifier (`application_sources` / `application_targets`) -/

/-- Structural prefix test on character lists. -/
def leadEq : List Char → List Char → Bool
  | [], _ => true
  | _ :: _, [] => false
  | a :: as, b :: bs => a == b && leadEq as bs

/-- Structural substring occurrence on character lists. -/
def subIn (pat : List Char) : List Char → Bool
  | [] => pat.isEmpty
  | b :: bs => leadEq pat (b :: bs) || subIn pat bs

/-- Python `pat in s` on strings. -/
def strIn (pat s : String) : Bool := subIn pat.data s.data

def VIRTUAL_MIC_SINK_NAME : String := "audiolink_virtual_mic_sink"

def VIRTUAL_MIC_SOURCE_NAME : String := "audiolink_virtual_mic"

/-- `PipeWireController._is_managed_virtual_node`. -/
def is_managed_virtual_node (n : Node) : Bool :=
  n.name == VIRTUAL_MIC_SINK_NAME || n.name == VIRTUAL_MIC_SOURCE_NAME

/-- `PipeWireController._is_application_audio_node`. -/
def is_application_audio_node (n : Node) : Bool :=
  let media_class := lowerStr n.media_class
  if ! strIn "audio" media_class then false
  else if strIn "stream" media_class then true
  else
    let desc := lowerStr n.description
    let nm := lowerStr n.name
    if ["firefox", "chrome", "discord", "spotify", "vlc"].any
        (fun token => strIn token desc || strIn token nm) then true
    else n.process_id.isSome

/-- `PipeWireController._looks_routable_node`. -/
def looks_routable_node (n : Node) : Bool :=
  if n.ports.any (fun p =>
      ["audio", "playback", "capture", "input", "output", "monitor"].any
        (fun token => strIn token (lowerStr p.name))) then true
  else ! n.ports.isEmpty

/-- `PipeWireController.application_sources`: three-tier waterfall.  The
Python locals `filtered_sources`, `preferred` and `fallback` are inlined. -/
def application_sources (snap : PipeWireSnapshot) : List Node :=
  if ! ((snap.sources.filter (fun n => ! is_managed_virtual_node n)).filter
      is_application_audio_node).isEmpty then
    sortNodesByDesc ((snap.sources.filter (fun n => ! is_managed_virtual_node n)).filter
      is_application_audio_node)
  else if ! ((snap.sources.filter (fun n => ! is_managed_virtual_node n)).filter
      looks_routable_node).isEmpty then
    sortNodesByDesc ((snap.sources.filter (fun n => ! is_managed_virtual_node n)).filter
      looks_routable_node)
  else sortNodesByDesc (snap.sources.filter (fun n => ! is_managed_virtual_node n))

/-- `PipeWireController.application_targets`. -/
def application_targets (snap : PipeWireSnapshot) : List Node :=
  if ! ((snap.sinks.filter (fun n => ! is_managed_virtual_node n)).filter
      is_application_audio_node).isEmpty then
    sortNodesByDesc ((snap.sinks.filter (fun n => ! is_managed_virtual_node n)).filter
      is_application_audio_node)
  else if ! ((snap.sinks.filter (fun n => ! is_managed_virtual_node n)).filter
      looks_routable_node).isEmpty then
    sortNodesByDesc ((snap.sinks.filter (fun n => ! is_managed_virtual_node n)).filter
      looks_routable_node)
  else sortNodesByDesc (snap.sinks.filter (fun n => ! is_managed_virtual_node n))

/-! ## C7 -/

theorem mem_sortNodesByDesc (l : List Node) (n : Node) :
    n ∈ sortNodesByDesc l ↔ n ∈ l :=
  (List.perm_insertionSort _ l).mem_iff

theorem sortNodesByDesc_ne_nil {l : List Node} (h : l ≠ []) : sortNodesByDesc l ≠ [] := by
  obtain ⟨n, hn⟩ := List.exists_mem_of_ne_nil l h
  exact List.ne_nil_of_mem ((mem_sortNodesByDesc l n).mpr hn)

/-- C7: whenever some node other than the two managed virtual-microphone
nodes has an output port, `application_sources` is non-empty (every tier of
the waterfall falls through to a larger set, and the last tier returns the
virtual-filtered set itself); symmetrically for `application_targets` with
input ports. -/
theorem application_pools_nonempty (snap : PipeWireSnapshot) :
    ((∃ n ∈ snap.nodeValues, is_managed_virtual_node n = false ∧ n.has_output = true) →
      application_sources snap ≠ []) ∧
    ((∃ n ∈ snap.nodeValues, is_managed_virtual_node n = false ∧ n.has_input = true) →
      application_targets snap ≠ []) := by
  constructor
  · rintro ⟨n, hn, hnm, hno⟩
    have hsrc : n ∈ snap.sources :=
      (mem_sortNodesByDesc _ n).mpr (List.mem_filter.mpr ⟨hn, hno⟩)
    have hfil : n ∈ snap.sources.filter (fun n => ! is_managed_virtual_node n) :=
      List.mem_filter.mpr ⟨hsrc, by simp [hnm]⟩
    have hne : snap.sources.filter (fun n => ! is_managed_virtual_node n) ≠ [] :=
      List.ne_nil_of_mem hfil
    cases hp : ((snap.sources.filter (fun n => ! is_managed_virtual_node n)).filter
        is_application_audio_node).isEmpty
    · rw [application_sources, hp]
      exact sortNodesByDesc_ne_nil (List.isEmpty_eq_false.mp hp)
    · cases hf : ((snap.sources.filter (fun n => ! is_managed_virtual_node n)).filter
          looks_routable_node).isEmpty
      · rw [application_sources, hp, hf]
        exact sortNodesByDesc_ne_nil (List.isEmpty_eq_false.mp hf)
      · rw [application_sources, hp, hf]
        exact sortNodesByDesc_ne_nil hne
  · rintro ⟨n, hn, hnm, hno⟩
    have hsrc : n ∈ snap.sinks :=
      (mem_sortNodesByDesc _ n).mpr (List.mem_filter.mpr ⟨hn, hno⟩)
    have hfil : n ∈ snap.sinks.filter (fun n => ! is_managed_virtual_node n) :=
      List.mem_filter.mpr ⟨hsrc, by simp [hnm]⟩
    have hne : snap.sinks.filter (fun n => ! is_managed_virtual_node n) ≠ [] :=
      List.ne_nil_of_mem hfil
    cases hp : ((snap.sinks.filter (fun n => ! is_managed_virtual_node n)).filter
        is_application_audio_node).isEmpty
    · rw [application_targets, hp]
      exact sortNodesByDesc_ne_nil (List.isEmpty_eq_false.mp hp)
    · cases hf : ((snap.sinks.filter (fun n => ! is_managed_virtual_node n)).filter
          looks_routable_node).isEmpty
      · rw [application_targets, hp, hf]
        exact sortNodesByDesc_ne_nil (List.isEmpty_eq_false.mp hf)
      · rw [application_targets, hp, hf]
        exact sortNodesByDesc_ne_nil hne

def c7_node : Node :=
  ⟨1, "app", "An App", "", none, [⟨10, "o", "out", 1, "app"⟩, ⟨11, "i", "in", 1, "app"⟩]⟩

def c7_snap : PipeWireSnapshot := ⟨[(1, c7_node)], []⟩

/-- C7 witness: a snapshot with a single non-virtual node carrying an output
and an input port but no classifiable metadata at all; both pools are
non-empty (via the port-label fallback tier). -/
theorem application_pools_nonempty_witness :
    ((∃ n ∈ c7_snap.nodeValues, is_managed_virtual_node n = false ∧ n.has_output = true) ∧
      (∃ n ∈ c7_snap.nodeValues, is_managed_virtual_node n = false ∧ n.has_input = true)) ∧
      application_sources c7_snap ≠ [] ∧ application_targets c7_snap ≠ [] :=
  ⟨⟨by decide, by decide⟩,
    (application_pools_nonempty c7_snap).1 (by decide),
    (application_pools_nonempty c7_snap).2 (by decide)⟩

/-! ## Topology dump parsing (`PipeWireController.snapshot`) -/

/-- Property values occurring in a pw-dump record as the parser reads them:
ints, strings, booleans and null (the fields the repository touches carry no
other shapes). -/
inductive JVal where
  | jnull
  | jbool (b : Bool)
  | jint (n : Int)
  | jstr (s : String)
deriving DecidableEq

/-- Python truthiness. -/
def JVal.truthy : JVal → Bool
  | .jnull => false
  | .jbool b => b
  | .jint n => decide (n ≠ 0)
  | .jstr s => decide (s ≠ "")

/-- Python `a or b or ...`: the first truthy operand, else the last one. -/
def orChain : List (Option JVal) → Option JVal
  | [] => none
  | [x] => x
  | x :: rest =>
    match x with
    | some v => if v.truthy then some v else orChain rest
    | none => orChain rest

/-- Python `str(value)`. -/
def JVal.pystr : JVal → String
  | .jnull => "None"
  | .jbool b => if b then "True" else "False"
  | .jint n => toString n
  | .jstr s => s

def digitsToNatAux : List Char → Nat → Option Nat
  | [], acc => some acc
  | c :: cs, acc =>
    if c.isDigit then digitsToNatAux cs (acc * 10 + (c.toNat - 48)) else none

def digitsToNat : List Char → Option Nat
  | [] => none
  | c :: cs => digitsToNatAux (c :: cs) 0

/-- Python `int(<string>)` restricted to plain optionally-signed decimal
numerals (the dumps the repository parses carry no padded or underscored
numerals). -/
def strToInt (s : String) : Option Int :=
  match s.data with
  | '-' :: rest => (digitsToNat rest).map (fun n => -(n : Int))
  | '+' :: rest => (digitsToNat rest).map (fun n => (n : Int))
  | ds => (digitsToNat ds).map (fun n => (n : Int))

/-- `PipeWireController._as_int`: `None` stays `None`, `int()` coerces ints,
bools and numeric strings, anything else yields `None`. -/
def as_int : Option JVal → Option Int
  | none => none
  | some .jnull => none
  | some (.jint n) => some n
  | some (.jbool b) => some (if b then 1 else 0)
  | some (.jstr s) => strToInt s

/-- `isinstance(v, int)` on a raw value (Python counts `bool` as `int`). -/
def asInstanceInt : JVal → Option Int
  | .jint n => some n
  | .jbool b => some (if b then 1 else 0)
  | _ => none

/-- Structural `str.endswith`. -/
def endsWithStr (s suf : String) : Bool := leadEq suf.data.reverse s.data.reverse

/-- One record of the topology dump.  A record is a JSON object; the fields
the parser touches are modelled explicitly: `oid` is `obj.get("id")`,
`otype` is `obj.get("type", "")` (a string, per the dump contract), `info`
holds the non-`props` keys of `obj["info"]`, `props` holds
`obj["info"]["props"]`, and `top` the remaining top-level keys (the parser
reads `obj.get("node.id")` from there). -/
structure DumpObj where
  oid : Option JVal
  otype : String
  info : List (String × JVal)
  props : List (String × JVal)
  top : List (String × JVal)
deriving DecidableEq

def jget (m : List (String × JVal)) (k : String) : Option JVal := dget m k

def port_direction_of (obj : DumpObj) : Option JVal :=
  orChain [jget obj.info "direction", jget obj.props "direction",
    jget obj.props "port.direction"]

def port_node_id_of (obj : DumpObj) : Option Int :=
  as_int (orChain [jget obj.info "node.id", jget obj.props "node.id", jget obj.top "node.id"])

def port_name_of (obj : DumpObj) (idv : JVal) : JVal :=
  (orChain [jget obj.props "port.alias", jget obj.props "port.name",
    jget obj.props "object.path", some (.jstr ("port-" ++ idv.pystr))]).getD (.jstr "")

def link_output_node_of (obj : DumpObj) : Option Int :=
  as_int (orChain [jget obj.info "output-node-id", jget obj.props "link.output.node"])

def link_output_port_of (obj : DumpObj) : Option Int :=
  as_int (orChain [jget obj.info "output-port-id", jget obj.props "link.output.port"])

def link_input_node_of (obj : DumpObj) : Option Int :=
  as_int (orChain [jget obj.info "input-node-id", jget obj.props "link.input.node"])

def link_input_port_of (obj : DumpObj) : Option Int :=
  as_int (orChain [jget obj.info "input-port-id", jget obj.props "link.input.port"])

/-- The parse loop's running state: the node dict, the per-owning-node port
buffers (`ports_by_node`), and the link list. -/
structure ParseAcc where
  nodes : List (Int × Node)
  ports_by_node : List (Int × List Port)
  links : List Link
deriving DecidableEq

/-- `ports_by_node.setdefault(node_id, []).append(port)`. -/
def appendPort (m : List (Int × List Port)) (k : Int) (p : Port) : List (Int × List Port) :=
  match m with
  | [] => [(k, [p])]
  | (k', ps) :: rest =>
    if k' = k then (k', ps ++ [p]) :: rest else (k', ps) :: appendPort rest k p

/-- One iteration of the parse loop (`snapshot` lines 129-217): classify the
record by its type suffix, skip it if its id is not an int, a port's
direction is not "in"/"out", a port's owning-node id does not coerce, or any
link endpoint does not coerce. -/
def process_obj (acc : ParseAcc) (obj : DumpObj) : ParseAcc :=
  if endsWithStr obj.otype "Node" then
    match obj.oid with
    | none => acc
    | some idv =>
      match asInstanceInt idv with
      | none => acc
      | some nid =>
        let node_name := (orChain [jget obj.props "node.name", jget obj.props "object.path",
          some (.jstr ("node-" ++ idv.pystr))]).getD (.jstr "")
        let desc := (orChain [jget obj.props "node.description", jget obj.props "node.nick",
          jget obj.props "application.name", some node_name]).getD (.jstr "")
        let media_class := (jget obj.props "media.class").getD (.jstr "")
        let pid := as_int (jget obj.props "application.process.id")
        { acc with nodes :=
            dinsert acc.nodes nid ⟨nid, node_name.pystr, desc.pystr, media_class.pystr, pid, []⟩ }
  else if endsWithStr obj.otype "Port" then
    match obj.oid with
    | none => acc
    | some idv =>
      match asInstanceInt idv with
      | none => acc
      | some pid =>
        match port_direction_of obj, port_node_id_of obj with
        | some (.jstr d), some nid =>
          if d = "in" ∨ d = "out" then
            { acc with ports_by_node :=
                appendPort acc.ports_by_node nid ⟨pid, (port_name_of obj idv).pystr, d, nid, ""⟩ }
          else acc
        | _, _ => acc
  else if endsWithStr obj.otype "Link" then
    match obj.oid with
    | none => acc
    | some idv =>
      match asInstanceInt idv with
      | none => acc
      | some lid =>
        match link_output_node_of obj, link_output_port_of obj,
            link_input_node_of obj, link_input_port_of obj with
        | some onid, some opid, some inid, some ipid =>
          { acc with links := acc.links ++ [⟨lid, onid, opid, inid, ipid⟩] }
        | _, _, _, _ => acc
  else acc

def stampPorts (nm : String) (ps : List Port) : List Port :=
  ps.map (fun p => { p with node_name := nm })

/-- The second pass (lines 219-225): attach each buffered port list to its
owning node, stamping the node's name; buffers whose node id is unknown are
dropped. -/
def attach_ports (nodes : List (Int × Node)) (pbn : List (Int × List Port)) :
    List (Int × Node) :=
  pbn.foldl (fun ns kv =>
    ns.map (fun en =>
      if en.1 = kv.1 then
        (en.1, { en.2 with ports := en.2.ports ++ stampPorts en.2.name kv.2 })
      else en)) nodes

def parse_dump (dump : List DumpObj) : ParseAcc :=
  dump.foldl process_obj ⟨[], [], []⟩

def total_ports (nodes : List (Int × Node)) : Nat :=
  (nodes.map (fun en => en.2.ports.length)).sum

/-- `PipeWireController.snapshot` as a function of the parsed dump records.
`fallback` stands for `_attach_ports_from_pw_link`, which queries two
external `pw-link` listings; it is an oracle on the node table and runs
exactly when zero ports were attached (line 227). -/
def snapshot_of_dump (fallback : List (Int × Node) → List (Int × Node))
    (dump : List DumpObj) : PipeWireSnapshot :=
  ⟨if total_ports (attach_ports (parse_dump dump).nodes (parse_dump dump).ports_by_node) = 0
    then fallback (attach_ports (parse_dump dump).nodes (parse_dump dump).ports_by_node)
    else attach_ports (parse_dump dump).nodes (parse_dump dump).ports_by_node,
   (parse_dump dump).links⟩

def bad_id (obj : DumpObj) : Bool :=
  match obj.oid with
  | none => true
  | some v => (asInstanceInt v).isNone

/-- A record the parse loop skips: a Node/Port/Link-typed record whose id is
not an int; a Port record whose direction does not resolve to "in"/"out" or
whose owning-node id does not coerce; a Link record with any non-coercible
endpoint. -/
def malformed (obj : DumpObj) : Bool :=
  if endsWithStr obj.otype "Node" then bad_id obj
  else if endsWithStr obj.otype "Port" then
    bad_id obj ||
      ! (port_direction_of obj == some (.jstr "in")
          || port_direction_of obj == some (.jstr "out")) ||
      (port_node_id_of obj).isNone
  else if endsWithStr obj.otype "Link" then
    bad_id obj || (link_output_node_of obj).isNone || (link_output_port_of obj).isNone ||
      (link_input_node_of obj).isNone || (link_input_port_of obj).isNone
  else false

/-! ## C3 -/

theorem process_obj_skip (acc : ParseAcc) (obj : DumpObj) (h : malformed obj = true) :
    process_obj acc obj = acc := by
  rw [malformed] at h
  rw [process_obj]
  by_cases hN : endsWithStr obj.otype "Node" = true
  · rw [if_pos hN] at h ⊢
    rw [bad_id] at h
    split
    · rfl
    · rename_i idv heq
      rw [heq] at h
      split
      · rfl
      · rename_i nid hi
        simp [hi] at h
  · rw [if_neg hN] at h ⊢
    by_cases hP : endsWithStr obj.otype "Port" = true
    · rw [if_pos hP] at h ⊢
      split
      · rfl
      · rename_i idv heq
        split
        · rfl
        · rename_i pid hi
          rw [bad_id, heq] at h
          simp only [hi] at h
          split
          · rename_i d nid heqd heqn
            rw [heqd, heqn] at h
            split
            · rename_i hc
              rcases hc with hc | hc <;> subst hc <;> simp_all
            · rfl
          · rfl
    · rw [if_neg hP] at h ⊢
      by_cases hL : endsWithStr obj.otype "Link" = true
      · rw [if_pos hL] at h ⊢
        split
        · rfl
        · rename_i idv heq
          split
          · rfl
          · rename_i lid hi
            rw [bad_id, heq] at h
            simp only [hi] at h
            split
            · rename_i onid opid inid ipid h1 h2 h3 h4
              simp [h1, h2, h3, h4] at h
            · rfl
      · rw [if_neg hL] at h ⊢

/-- C3: parsing a topology dump is total — it always yields a (possibly
empty) snapshot — and any single malformed record (non-integer id,
unresolvable port direction or owning-node id, non-coercible link endpoint)
is skipped in isolation: the snapshot of a dump containing such a record
equals the snapshot of the same dump without it, whatever the surrounding
records and whatever the port fallback would do. -/
theorem snapshot_skips_malformed (fallback : List (Int × Node) → List (Int × Node))
    (xs ys : List DumpObj) (r : DumpObj) (h : malformed r = true) :
    snapshot_of_dump fallback (xs ++ r :: ys) = snapshot_of_dump fallback (xs ++ ys) := by
  have hp : parse_dump (xs ++ r :: ys) = parse_dump (xs ++ ys) := by
    rw [parse_dump, parse_dump, List.foldl_append, List.foldl_append, List.foldl_cons,
      process_obj_skip _ r h]
  rw [snapshot_of_dump, snapshot_of_dump, hp]

def c3_bad_port : DumpObj :=
  ⟨some (.jint 7), "PipeWire:Interface:Port", [], [("port.name", .jstr "out0")], []⟩

def c3_good_node : DumpObj :=
  ⟨some (.jint 1), "PipeWire:Interface:Node", [],
    [("node.name", .jstr "a"), ("node.description", .jstr "A")], []⟩

/-- C3 witness: a port record with no resolvable direction is malformed, and
dropping it from a dump that also holds a well-formed node record leaves the
parsed snapshot unchanged. -/
theorem snapshot_skips_malformed_witness :
    malformed c3_bad_port = true ∧
      snapshot_of_dump id [c3_bad_port, c3_good_node] = snapshot_of_dump id [c3_good_node] :=
  ⟨by decide, snapshot_skips_malformed id [] [c3_good_node] c3_bad_port (by decide)⟩

/-! ## Gain control (`set_volume_by_keys`, `apply_target_db_offset_by_keys`) -/

/-- `max(0, min(100, percent)) / 100.0`. -/
def volumeOf (percent : Int) : ℚ := ((max 0 (min 100 percent) : Int) : ℚ) / 100

/-- The per-key loop of `set_volume_by_keys` (lines 351-358): `exec i v`
models running `wpctl set-volume <i> <v>`.  Returns the trace of issued
commands and the collected failure descriptions: keys missing from `by_name`
are skipped, a failing command's description is collected and the loop
continues. -/
def set_volume_loop (exec : Int → ℚ → Except String Unit)
    (by_name : List (String × Node)) (volume : ℚ) :
    List String → List (Int × ℚ) × List String
  | [] => ([], [])
  | key :: rest =>
    let tail := set_volume_loop exec by_name volume rest
    match dget by_name key with
    | none => tail
    | some node =>
      match exec node.id volume with
      | .ok _ => ((node.id, volume) :: tail.1, tail.2)
      | .error e => ((node.id, volume) :: tail.1, (node.description ++ ": " ++ e) :: tail.2)

/-- `PipeWireController.set_volume_by_keys`: requires `wpctl`, runs the loop
over `{n.name: n for n in snapshot.sources}`, and raises one combined error
joining the first three collected failures. -/
def set_volume_by_keys (hasWpctl : Bool) (exec : Int → ℚ → Except String Unit)
    (source_keys : List String) (snap : PipeWireSnapshot) (percent : Int) :
    List (Int × ℚ) × Except String Unit :=
  if ! hasWpctl then ([], .error "Missing required command for volume control: wpctl")
  else
    let r := set_volume_loop exec (dictOfNodes snap.sources) (volumeOf percent) source_keys
    (r.1, if r.2.isEmpty then .ok () else .error (String.intercalate "; " (r.2.take 3)))

/-- The failure descriptions `set_volume_by_keys` collects, stated directly
per key. -/
def sv_errors (exec : Int → ℚ → Except String Unit) (by_name : List (String × Node))
    (volume : ℚ) (keys : List String) : List String :=
  keys.filterMap (fun key =>
    match dget by_name key with
    | none => none
    | some node =>
      match exec node.id volume with
      | .ok _ => none
      | .error e => some (node.description ++ ": " ++ e))

theorem set_volume_loop_eq (exec : Int → ℚ → Except String Unit)
    (bn : List (String × Node)) (v : ℚ) (keys : List String) :
    set_volume_loop exec bn v keys
      = ((keys.filterMap (fun k => dget bn k)).map (fun n => (n.id, v)),
         sv_errors exec bn v keys) := by
  induction keys with
  | nil => rfl
  | cons k rest ih =>
    simp only [set_volume_loop, ih]
    cases hk : dget bn k with
    | none => simp [sv_errors, List.filterMap_cons, hk]
    | some node =>
      cases he : exec node.id v with
      | ok u => simp [sv_errors, List.filterMap_cons, hk, he]
      | error e => simp [sv_errors, List.filterMap_cons, hk, he]

/-- `math.pow(10.0, desired_db / 20.0)`. -/
noncomputable def gainOf (desired_db : ℝ) : ℝ := Real.rpow 10 (desired_db / 20)

/-- The per-key loop of `apply_target_db_offset_by_keys` (lines 374-388).
`fetch i` models `_get_node_volume_linear(i)` (a `wpctl get-volume` call
plus parse), `exec i v` models `wpctl set-volume <i> <v>`.  Components: the
trace of fetches, the trace of issued set commands, the final baselines map,
and the collected failure descriptions.  On a fetch failure the baselines
map is not extended (the exception aborts that key's body before the
assignment) and the loop continues with the next key. -/
noncomputable def apply_offset_loop (fetch : Int → Except String ℝ)
    (exec : Int → ℝ → Except String Unit) (by_name : List (String × Node))
    (desired_db : ℝ) :
    List String → List (String × ℝ) →
      List Int × List (Int × ℝ) × List (String × ℝ) × List String
  | [], baselines => ([], [], baselines, [])
  | key :: rest, baselines =>
    match dget by_name key with
    | none => apply_offset_loop fetch exec by_name desired_db rest baselines
    | some node =>
      match dget baselines key with
      | some b =>
        let t := max 0 (b * gainOf desired_db)
        match exec node.id t with
        | .ok _ =>
          let tail := apply_offset_loop fetch exec by_name desired_db rest baselines
          (tail.1, (node.id, t) :: tail.2.1, tail.2.2.1, tail.2.2.2)
        | .error e =>
          let tail := apply_offset_loop fetch exec by_name desired_db rest baselines
          (tail.1, (node.id, t) :: tail.2.1, tail.2.2.1,
            (node.description ++ ": " ++ e) :: tail.2.2.2)
      | none =>
        match fetch node.id with
        | .error e =>
          let tail := apply_offset_loop fetch exec by_name desired_db rest baselines
          (node.id :: tail.1, tail.2.1, tail.2.2.1,
            (node.description ++ ": " ++ e) :: tail.2.2.2)
        | .ok b =>
          let t := max 0 (b * gainOf desired_db)
          match exec node.id t with
          | .ok _ =>
            let tail := apply_offset_loop fetch exec by_name desired_db rest
              (dinsert baselines key b)
            (node.id :: tail.1, (node.id, t) :: tail.2.1, tail.2.2.1, tail.2.2.2)
          | .error e =>
            let tail := apply_offset_loop fetch exec by_name desired_db rest
              (dinsert baselines key b)
            (node.id :: tail.1, (node.id, t) :: tail.2.1, tail.2.2.1,
              (node.description ++ ": " ++ e) :: tail.2.2.2)

/-- `PipeWireController.apply_target_db_offset_by_keys`: requires `wpctl`,
runs the loop over `{n.name: n for n in snapshot.sinks}`, and raises one
combined error joining the first three collected failures. -/
noncomputable def apply_target_db_offset_by_keys (hasWpctl : Bool)
    (fetch : Int → Except String ℝ) (exec : Int → ℝ → Except String Unit)
    (target_keys : List String) (snap : PipeWireSnapshot) (desired_db : ℝ)
    (baselines : List (String × ℝ)) :
    List Int × List (Int × ℝ) × List (String × ℝ) × Except String Unit :=
  if ! hasWpctl then
    ([], [], baselines, .error "Missing required command for target dB offset control: wpctl")
  else
    let r := apply_offset_loop fetch exec (dictOfNodes snap.sinks) desired_db
      target_keys baselines
    (r.1, r.2.1, r.2.2.1,
      if r.2.2.2.isEmpty then .ok ()
      else .error (String.intercalate "; " (r.2.2.2.take 3)))

/-! ## C8 -/

theorem apply_offset_loop_covers (fetch : Int → Except String ℝ)
    (exec : Int → ℝ → Except String Unit) (bn : List (String × Node)) (db : ℝ) :
    ∀ (keys : List String) (baselines : List (String × ℝ)) (k : String) (n : Node),
      k ∈ keys → dget bn k = some n →
      n.id ∈ (apply_offset_loop fetch exec bn db keys baselines).1 ∨
        ∃ t, (n.id, t) ∈ (apply_offset_loop fetch exec bn db keys baselines).2.1 := by
  intro keys
  induction keys with
  | nil => intro _ _ _ hk _; cases hk
  | cons key rest ih =>
    intro baselines k n hk hn
    rcases List.mem_cons.mp hk with hk | hk
    · subst hk
      cases hb : dget baselines k with
      | some b =>
        cases he : exec n.id (max 0 (b * gainOf db)) with
        | ok u =>
          simp only [apply_offset_loop, hn, hb, he]
          exact Or.inr ⟨_, List.mem_cons_self _ _⟩
        | error e =>
          simp only [apply_offset_loop, hn, hb, he]
          exact Or.inr ⟨_, List.mem_cons_self _ _⟩
      | none =>
        cases hf : fetch n.id with
        | error e =>
          simp only [apply_offset_loop, hn, hb, hf]
          exact Or.inl (List.mem_cons_self _ _)
        | ok b =>
          cases he : exec n.id (max 0 (b * gainOf db)) with
          | ok u =>
            simp only [apply_offset_loop, hn, hb, hf, he]
            exact Or.inl (List.mem_cons_self _ _)
          | error e =>
            simp only [apply_offset_loop, hn, hb, hf, he]
            exact Or.inl (List.mem_cons_self _ _)
    · cases hd : dget bn key with
      | none =>
        simp only [apply_offset_loop, hd]
        exact ih baselines k n hk hn
      | some node =>
        cases hb : dget baselines key with
        | some b =>
          cases he : exec node.id (max 0 (b * gainOf db)) with
          | ok u =>
            simp only [apply_offset_loop, hd, hb, he]
            rcases ih baselines k n hk hn with h | ⟨t, ht⟩
            · exact Or.inl h
            · exact Or.inr ⟨t, List.mem_cons_of_mem _ ht⟩
          | error e =>
            simp only [apply_offset_loop, hd, hb, he]
            rcases ih baselines k n hk hn with h | ⟨t, ht⟩
            · exact Or.inl h
            · exact Or.inr ⟨t, List.mem_cons_of_mem _ ht⟩
        | none =>
          cases hf : fetch node.id with
          | error e =>
            simp only [apply_offset_loop, hd, hb, hf]
            rcases ih baselines k n hk hn with h | ⟨t, ht⟩
            · exact Or.inl (List.mem_cons_of_mem _ h)
            · exact Or.inr ⟨t, ht⟩
          | ok b =>
            cases he : exec node.id (max 0 (b * gainOf db)) with
            | ok u =>
              simp only [apply_offset_loop, hd, hb, hf, he]
              rcases ih (dinsert baselines key b) k n hk hn with h | ⟨t, ht⟩
              · exact Or.inl (List.mem_cons_of_mem _ h)
              · exact Or.inr ⟨t, List.mem_cons_of_mem _ ht⟩
            | error e =>
              simp only [apply_offset_loop, hd, hb, hf, he]
              rcases ih (dinsert baselines key b) k n hk hn with h | ⟨t, ht⟩
              · exact Or.inl (List.mem_cons_of_mem _ h)
              · exact Or.inr ⟨t, List.mem_cons_of_mem _ ht⟩

theorem apply_offset_loop_errors_mem (fetch : Int → Except String ℝ)
    (exec : Int → ℝ → Except String Unit) (bn : List (String × Node)) (db : ℝ) :
    ∀ (keys : List String) (baselines : List (String × ℝ)) (msg : String),
      msg ∈ (apply_offset_loop fetch exec bn db keys baselines).2.2.2 →
      ∃ k n e, k ∈ keys ∧ dget bn k = some n ∧ msg = n.description ++ ": " ++ e ∧
        (fetch n.id = .error e ∨ ∃ t, exec n.id t = .error e) := by
  intro keys
  induction keys with
  | nil => intro _ _ hm; cases hm
  | cons key rest ih =>
    intro baselines msg hm
    have lift : ∀ baselines2 : List (String × ℝ),
        msg ∈ (apply_offset_loop fetch exec bn db rest baselines2).2.2.2 →
        ∃ k n e, k ∈ key :: rest ∧ dget bn k = some n ∧
          msg = n.description ++ ": " ++ e ∧
          (fetch n.id = .error e ∨ ∃ t, exec n.id t = .error e) := by
      intro baselines2 hm2
      obtain ⟨k, n, e, hk, hn, hmsg, hfail⟩ := ih baselines2 msg hm2
      exact ⟨k, n, e, List.mem_cons_of_mem _ hk, hn, hmsg, hfail⟩
    cases hd : dget bn key with
    | none =>
      simp only [apply_offset_loop, hd] at hm
      exact lift baselines hm
    | some node =>
      cases hb : dget baselines key with
      | some b =>
        cases he : exec node.id (max 0 (b * gainOf db)) with
        | ok u =>
          simp only [apply_offset_loop, hd, hb, he] at hm
          exact lift baselines hm
        | error e =>
          simp only [apply_offset_loop, hd, hb, he] at hm
          rcases List.mem_cons.mp hm with hm | hm
          · exact ⟨key, node, e, List.mem_cons_self _ _, hd, hm, Or.inr ⟨_, he⟩⟩
          · exact lift baselines hm
      | none =>
        cases hf : fetch node.id with
        | error e =>
          simp only [apply_offset_loop, hd, hb, hf] at hm
          rcases List.mem_cons.mp hm with hm | hm
          · exact ⟨key, node, e, List.mem_cons_self _ _, hd, hm, Or.inl hf⟩
          · exact lift baselines hm
        | ok b =>
          cases he : exec node.id (max 0 (b * gainOf db)) with
          | ok u =>
            simp only [apply_offset_loop, hd, hb, hf, he] at hm
            exact lift (dinsert baselines key b) hm
          | error e =>
            simp only [apply_offset_loop, hd, hb, hf, he] at hm
            rcases List.mem_cons.mp hm with hm | hm
            · exact ⟨key, node, e, List.mem_cons_self _ _, hd, hm, Or.inr ⟨_, he⟩⟩
            · exact lift (dinsert baselines key b) hm

/-- C8: both multi-key gain operations keep processing after a per-node
failure and aggregate failures rather than aborting: `set_volume_by_keys`
issues one set command per resolvable key — also after failures — and
returns `ok` exactly when no command failed, else one combined error joining
the first 3 failure descriptions; `apply_target_db_offset_by_keys` likewise
touches (fetches or sets) every resolvable key, returns `ok` exactly when
its collected failure list is empty, else one combined error joining that
list's first 3 entries — and every collected entry is the description of an
actual per-node command failure. -/
theorem multi_key_failure_aggregation (exec : Int → ℚ → Except String Unit)
    (fetch : Int → Except String ℝ) (exec2 : Int → ℝ → Except String Unit)
    (keys tkeys : List String) (snap snap2 : PipeWireSnapshot) (percent : Int)
    (desired_db : ℝ) (baselines : List (String × ℝ)) :
    (set_volume_by_keys true exec keys snap percent).1
        = (keys.filterMap (fun k => dget (dictOfNodes snap.sources) k)).map
            (fun n => (n.id, volumeOf percent)) ∧
      (set_volume_by_keys true exec keys snap percent).2
        = (if (sv_errors exec (dictOfNodes snap.sources) (volumeOf percent) keys).isEmpty
           then .ok ()
           else .error (String.intercalate "; "
             ((sv_errors exec (dictOfNodes snap.sources) (volumeOf percent) keys).take 3))) ∧
      (∀ k n, k ∈ tkeys → dget (dictOfNodes snap2.sinks) k = some n →
        n.id ∈ (apply_target_db_offset_by_keys true fetch exec2 tkeys snap2
            desired_db baselines).1 ∨
          ∃ t, (n.id, t) ∈ (apply_target_db_offset_by_keys true fetch exec2 tkeys snap2
            desired_db baselines).2.1) ∧
      ((apply_offset_loop fetch exec2 (dictOfNodes snap2.sinks) desired_db
          tkeys baselines).2.2.2 = [] →
        (apply_target_db_offset_by_keys true fetch exec2 tkeys snap2
          desired_db baselines).2.2.2 = .ok ()) ∧
      ((apply_offset_loop fetch exec2 (dictOfNodes snap2.sinks) desired_db
          tkeys baselines).2.2.2 ≠ [] →
        (apply_target_db_offset_by_keys true fetch exec2 tkeys snap2
            desired_db baselines).2.2.2
          = .error (String.intercalate "; "
              (((apply_offset_loop fetch exec2 (dictOfNodes snap2.sinks) desired_db
                tkeys baselines).2.2.2).take 3))) ∧
      (∀ msg ∈ (apply_offset_loop fetch exec2 (dictOfNodes snap2.sinks) desired_db
          tkeys baselines).2.2.2,
        ∃ k n e, k ∈ tkeys ∧ dget (dictOfNodes snap2.sinks) k = some n ∧
          msg = n.description ++ ": " ++ e ∧
          (fetch n.id = .error e ∨ ∃ t, exec2 n.id t = .error e)) := by
  refine ⟨?_, ?_, ?_, ?_, ?_, ?_⟩
  · show (set_volume_loop exec (dictOfNodes snap.sources) (volumeOf percent) keys).1 = _
    rw [set_volume_loop_eq]
  · show (if (set_volume_loop exec (dictOfNodes snap.sources) (volumeOf percent) keys).2.isEmpty
        then Except.ok () else _) = _
    rw [set_volume_loop_eq]
  · intro k n hk hn
    exact apply_offset_loop_covers fetch exec2 (dictOfNodes snap2.sinks) desired_db
      tkeys baselines k n hk hn
  · intro he
    show (if (apply_offset_loop fetch exec2 (dictOfNodes snap2.sinks) desired_db
        tkeys baselines).2.2.2.isEmpty then Except.ok () else _) = _
    rw [he]
    rfl
  · intro he
    show (if (apply_offset_loop fetch exec2 (dictOfNodes snap2.sinks) desired_db
        tkeys baselines).2.2.2.isEmpty then Except.ok () else _) = _
    rw [if_neg (by simpa using he)]
  · intro msg hm
    exact apply_offset_loop_errors_mem fetch exec2 (dictOfNodes snap2.sinks) desired_db
      tkeys baselines msg hm

def c8_src : Node := ⟨1, "s1", "S1", "Audio", none, [⟨10, "o", "out", 1, "s1"⟩]⟩

def c8_t1 : Node := ⟨2, "t1", "T1", "Audio", none, [⟨20, "i", "in", 2, "t1"⟩]⟩

def c8_t2 : Node := ⟨3, "t2", "T2", "Audio", none, [⟨30, "i", "in", 3, "t2"⟩]⟩

def c8_snap : PipeWireSnapshot := ⟨[(1, c8_src), (2, c8_t1), (3, c8_t2)], []⟩

def c8_exec : Int → ℚ → Except String Unit :=
  fun i _ => if i = 1 then .error "boom" else .ok ()

def c8_exec2 : Int → ℝ → Except String Unit :=
  fun i _ => if i = 2 then .error "bang" else .ok ()

def c8_ok2 : Int → ℝ → Except String Unit := fun _ _ => .ok ()

def c8_fetch : Int → Except String ℝ := fun _ => .ok 1

/-- C8 witness: the aggregation theorem applied with a set command that
fails on node 1 (resp. on sink t1) and, separately, with one that always
succeeds; key t2 is still touched after t1's failure, the combined error is
the join of the collected descriptions, and the failure-free run returns
`ok`. -/
theorem multi_key_failure_aggregation_witness :
    ((set_volume_by_keys true c8_exec ["s1"] c8_snap 50).1
        = (["s1"].filterMap (fun k => dget (dictOfNodes c8_snap.sources) k)).map
            (fun n => (n.id, volumeOf 50)) ∧
      (set_volume_by_keys true c8_exec ["s1"] c8_snap 50).2
        = (if (sv_errors c8_exec (dictOfNodes c8_snap.sources) (volumeOf 50) ["s1"]).isEmpty
           then .ok ()
           else .error (String.intercalate "; "
             ((sv_errors c8_exec (dictOfNodes c8_snap.sources) (volumeOf 50) ["s1"]).take 3)))) ∧
      ("t2" ∈ ["t1", "t2"] ∧ dget (dictOfNodes c8_snap.sinks) "t2" = some c8_t2 ∧
        (c8_t2.id ∈ (apply_target_db_offset_by_keys true c8_fetch c8_exec2 ["t1", "t2"]
            c8_snap 0 []).1 ∨
          ∃ t, (c8_t2.id, t) ∈ (apply_target_db_offset_by_keys true c8_fetch c8_exec2
            ["t1", "t2"] c8_snap 0 []).2.1)) ∧
      ((apply_offset_loop c8_fetch c8_exec2 (dictOfNodes c8_snap.sinks) 0
          ["t1", "t2"] []).2.2.2 ≠ [] ∧
        (apply_target_db_offset_by_keys true c8_fetch c8_exec2 ["t1", "t2"]
            c8_snap 0 []).2.2.2
          = .error (String.intercalate "; "
              (((apply_offset_loop c8_fetch c8_exec2 (dictOfNodes c8_snap.sinks) 0
                ["t1", "t2"] []).2.2.2).take 3))) ∧
      ((apply_offset_loop c8_fetch c8_ok2 (dictOfNodes c8_snap.sinks) 0
          ["t1", "t2"] []).2.2.2 = [] ∧
        (apply_target_db_offset_by_keys true c8_fetch c8_ok2 ["t1", "t2"]
          c8_snap 0 []).2.2.2 = .ok ()) ∧
      (∃ kk n e, kk ∈ ["t1", "t2"] ∧ dget (dictOfNodes c8_snap.sinks) kk = some n ∧
        "T1" ++ ": " ++ "bang" = n.description ++ ": " ++ e ∧
        (c8_fetch n.id = .error e ∨ ∃ t, c8_exec2 n.id t = .error e)) := by
  have h1 := multi_key_failure_aggregation c8_exec c8_fetch c8_exec2 ["s1"] ["t1", "t2"]
    c8_snap c8_snap 50 0 []
  have h2 := multi_key_failure_aggregation c8_exec c8_fetch c8_ok2 ["s1"] ["t1", "t2"]
    c8_snap c8_snap 50 0 []
  refine ⟨⟨h1.1, h1.2.1⟩,
    ⟨by decide, by decide, h1.2.2.1 "t2" c8_t2 (by decide) (by decide)⟩,
    ⟨by decide, h1.2.2.2.2.1 (by decide)⟩,
    ⟨by decide, h2.2.2.2.1 (by decide)⟩,
    h1.2.2.2.2.2 ("T1" ++ ": " ++ "bang") (by decide)⟩

/-! ## C9 -/

/-- C9: `apply_target_db_offset_by_keys` fetches a node's current linear
gain only on the first use of a key: with the key missing from the baselines
map it issues exactly one fetch, stores the fetched value in the map, and
sets the node's gain to `max 0 (baseline * 10^(desired_db/20))`; with the
key already in the map it issues no fetch and applies the same formula to
the cached baseline; and the value set is clamped to be ≥ 0. -/
theorem apply_offset_baseline_caching (fetch : Int → Except String ℝ)
    (exec : Int → ℝ → Except String Unit) (k : String) (n : Node)
    (snap : PipeWireSnapshot) (desired_db : ℝ) (baselines : List (String × ℝ))
    (hn : dget (dictOfNodes snap.sinks) k = some n) :
    (∀ v, dget baselines k = none → fetch n.id = .ok v →
      exec n.id (max 0 (v * gainOf desired_db)) = .ok () →
      apply_target_db_offset_by_keys true fetch exec [k] snap desired_db baselines
        = ([n.id], [(n.id, max 0 (v * gainOf desired_db))], dinsert baselines k v, .ok ())) ∧
      (∀ b, dget baselines k = some b →
        exec n.id (max 0 (b * gainOf desired_db)) = .ok () →
        apply_target_db_offset_by_keys true fetch exec [k] snap desired_db baselines
          = ([], [(n.id, max 0 (b * gainOf desired_db))], baselines, .ok ())) ∧
      (∀ b : ℝ, (0 : ℝ) ≤ max 0 (b * gainOf desired_db)) := by
  refine ⟨?_, ?_, fun b => le_max_left 0 _⟩
  · intro v hb hf he
    simp [apply_target_db_offset_by_keys, apply_offset_loop, hn, hb, hf, he]
  · intro b hb he
    simp [apply_target_db_offset_by_keys, apply_offset_loop, hn, hb, he]

def c9_node : Node := ⟨3, "spk", "Speaker", "Audio", none, [⟨30, "i", "in", 3, "spk"⟩]⟩

def c9_snap : PipeWireSnapshot := ⟨[(3, c9_node)], []⟩

def c9_fetch : Int → Except String ℝ := fun _ => .ok 1

def c9_exec : Int → ℝ → Except String Unit := fun _ _ => .ok ()

/-- C9 witness: a first call with an empty baselines map fetches once,
caches baseline 1 under "spk" and sets `max 0 (1 * 10^(0/20))`; a second
call reusing the produced map issues no fetch and reuses the cached
baseline with the new offset. -/
theorem apply_offset_baseline_caching_witness :
    dget (dictOfNodes c9_snap.sinks) "spk" = some c9_node ∧
      dget ([] : List (String × ℝ)) "spk" = none ∧
      apply_target_db_offset_by_keys true c9_fetch c9_exec ["spk"] c9_snap 0 []
        = ([c9_node.id], [(c9_node.id, max 0 (1 * gainOf 0))],
           dinsert [] "spk" 1, .ok ()) ∧
      apply_target_db_offset_by_keys true c9_fetch c9_exec ["spk"] c9_snap 6
          (dinsert [] "spk" 1)
        = ([], [(c9_node.id, max 0 (1 * gainOf 6))], dinsert [] "spk" 1, .ok ()) := by
  have h1 := apply_offset_baseline_caching c9_fetch c9_exec "spk" c9_node c9_snap 0 []
    (by decide)
  have h2 := apply_offset_baseline_caching c9_fetch c9_exec "spk" c9_node c9_snap 6
    (dinsert [] "spk" 1) (by decide)
  exact ⟨by decide, rfl, h1.1 1 rfl rfl rfl, h2.2.1 1 rfl rfl⟩
